import Mathlib

/-!
Verification of the badgerodon/net repository against its natural-language
specification.  The Go source is shallowly embedded: byte slices become
`List Nat` (each entry < 256), machine integers become `Nat` with explicit
bounds, fallible operations return `Option` or `Except`, and the NaCl box
primitives are modelled symbolically (a sealed blob records its plaintext,
nonce and symmetric key; Curve25519 scalar multiplication is modelled as
`Nat` exponentiation, which has the Diffie-Hellman symmetry
`(2 ^ a) ^ b = (2 ^ b) ^ a` that the code relies on).

The file is organized as: all definitions (one namespace per Go package),
then supporting lemmas, then one theorem per claim.
-/

namespace boxconn

/-- 24-byte all-zero nonce (`var zeroNonce [nonceSize]byte` in protocol.go). -/
def zeroNonce : List Nat := List.replicate 24 0

/-- Little-endian byte increment with carry.  This is the loop body of
`incrementNonce` in protocol.go run over the reversed byte array: the Go
loop walks from the last byte towards the first, incrementing each byte
mod 256 and stopping at the first byte that did not wrap to zero. -/
def incLE : List Nat → List Nat
  | [] => []
  | b :: rest => if (b + 1) % 256 = 0 then 0 :: incLE rest else ((b + 1) % 256) :: rest

/-- `incrementNonce` from protocol.go: big-endian increment-by-one over the
24 nonce bytes, realized by reversing, running the little-endian carry
loop, and reversing back. -/
def incrementNonce (n : List Nat) : List Nat := (incLE n.reverse).reverse

/-- Value of a little-endian byte list. -/
def leToNat : List Nat → Nat
  | [] => 0
  | b :: rest => b + 256 * leToNat rest

/-- Value of a big-endian byte list (the nonce as a number). -/
def nonceToNat (n : List Nat) : Nat := leToNat n.reverse

/-- All entries are bytes. -/
def wfBytes (l : List Nat) : Prop := ∀ b ∈ l, b < 256

instance wfBytesDecidable (l : List Nat) : Decidable (wfBytes l) :=
  inferInstanceAs (Decidable (∀ b ∈ l, b < 256))

/-- Symbolic data universe for boxconn byte strings.  `bytes` is a literal
byte string (tokens, application plaintext), `keyBytes k` is the 32-byte
encoding of the key `k`, and `box m n k` is the NaCl-box sealed blob of
plaintext `m` under nonce `n` and symmetric key `k`.  Equality of `PData`
models byte equality of the encodings (encodings are injective). -/
inductive PData
  | bytes (bs : List Nat)
  | keyBytes (k : Nat)
  | box (m : PData) (n : List Nat) (k : Nat)
  deriving DecidableEq, Repr

/-- Curve25519 scalar multiplication modelled as `Nat` exponentiation:
a public key for the scalar `x` is `2 ^ x`, and `box.Precompute`
(`ScalarMult` plus key derivation) of a point `pk` by scalar `sk` is
`pk ^ sk`.  This keeps the Diffie-Hellman symmetry
`precompute (pubKeyOf a) b = precompute (pubKeyOf b) a`. -/
def precompute (pk sk : Nat) : Nat := pk ^ sk

/-- Honest public key for the private scalar `x` (`box.GenerateKey`). -/
def pubKeyOf (x : Nat) : Nat := 2 ^ x

/-- `box.Seal(nil, m, &nonce, &peersPublicKey, &privateKey)`: seals under the
symmetric key precomputed from the two key arguments. -/
def boxSeal (m : PData) (nonce : List Nat) (pk sk : Nat) : PData :=
  PData.box m nonce (precompute pk sk)

/-- `box.Open(nil, sealed, &nonce, &peersPublicKey, &privateKey)`: succeeds
iff the blob was sealed under the same nonce and the same precomputed
symmetric key. -/
def boxOpen (d : PData) (nonce : List Nat) (pk sk : Nat) : Option PData :=
  match d with
  | PData.box m n k => if n = nonce ∧ k = precompute pk sk then some m else none
  | _ => none

/-- A framed transport message (`Message` in protocol.go): a 24-byte nonce
plus a data payload. -/
structure PMessage where
  nonce : List Nat
  data : PData
  deriving DecidableEq, Repr

/-- The `Protocol` struct of protocol.go. -/
structure Protocol where
  myNonce : List Nat
  peerNonce : List Nat
  privateKey : Nat
  publicKey : Nat
  peerKey : Nat
  sharedKey : Nat
  deriving DecidableEq, Repr

/-- `Protocol.ReadRaw`, with the inbound framed message passed explicitly
(in Go it comes from `p.reader.ReadMessage()`).  If the stored peer nonce
is still the all-zero sentinel the message nonce is adopted, otherwise the
stored nonce is incremented; the message is rejected (`invalid nonce`)
unless its nonce equals the updated stored nonce.  Note the nonce state is
updated even on the failing path, exactly as in the Go code. -/
def Protocol.readRaw (p : Protocol) (msg : PMessage) : Protocol × Option PData :=
  let pn := if p.peerNonce = zeroNonce then msg.nonce else incrementNonce p.peerNonce
  ({ p with peerNonce := pn }, if msg.nonce = pn then some msg.data else none)

/-- `Protocol.Read`: `ReadRaw`, then `box.Open` of the payload under
`(&p.peerNonce, &p.peerKey, &p.privateKey)` (the peer nonce as updated by
`ReadRaw`).  `none` covers both the `invalid nonce` and the
`error decrypting message` failures. -/
def Protocol.read (p : Protocol) (msg : PMessage) : Protocol × Option PData :=
  let pr := Protocol.readRaw p msg
  (pr.1, match pr.2 with
         | none => none
         | some sealedD => boxOpen sealedD pr.1.peerNonce pr.1.peerKey pr.1.privateKey)

/-- Draw one fresh nonce from the explicit entropy stream (models
`generateNonce()`; the stream is a parameter so runs are deterministic). -/
def genNonce : List (List Nat) → List Nat × List (List Nat)
  | [] => (zeroNonce, [])
  | n :: rest => (n, rest)

/-- `Protocol.WriteRaw`: on the first write the nonce is freshly generated,
afterwards it is incremented; the data is framed unencrypted. -/
def Protocol.writeRaw (p : Protocol) (ent : List (List Nat)) (data : PData) :
    Protocol × List (List Nat) × PMessage :=
  let n' := if p.myNonce = zeroNonce then (genNonce ent).1 else incrementNonce p.myNonce
  let ent' := if p.myNonce = zeroNonce then (genNonce ent).2 else ent
  ({ p with myNonce := n' }, ent', ⟨n', data⟩)

/-- `Protocol.Write`: same nonce handling as `WriteRaw`, then
`box.Seal(nil, unsealed, &p.myNonce, &p.peerKey, &p.sharedKey)` — note the
source passes the *precomputed shared key* in the private-key argument
slot of `box.Seal`, so the blob is sealed under
`precompute p.peerKey p.sharedKey`, not under `p.sharedKey` itself. -/
def Protocol.write (p : Protocol) (ent : List (List Nat)) (unsealed : PData) :
    Protocol × List (List Nat) × PMessage :=
  let n' := if p.myNonce = zeroNonce then (genNonce ent).1 else incrementNonce p.myNonce
  let ent' := if p.myNonce = zeroNonce then (genNonce ent).2 else ent
  ({ p with myNonce := n' }, ent', ⟨n', boxSeal unsealed n' p.peerKey p.sharedKey⟩)

/-- Plaintext of a sealed blob, if the data is one (used to state what a
frame "seals"). -/
def boxPlain : PData → Option PData
  | PData.box m _ _ => some m
  | _ => none

/-- `copy(peerKey[:], data)`: reinterpret received bytes as a 32-byte key.
Only a genuine key encoding yields the key back; any other byte string is
modelled as the junk key 0. -/
def dataToKey : PData → Nat
  | PData.keyBytes k => k
  | _ => 0

/-- `Protocol.Handshake` from protocol.go, with the inbound framed messages
supplied as the list `inbox` (consumed in order; running out models a
transport error from the reader), the entropy stream `ent` feeding
`generateNonce()`, and `token` standing for the fresh 16-byte
`uuid.NewUUID()` session token.  Returns the final protocol state and the
list of framed messages written, or the error the Go code returns. -/
def handshake (priv pub : Nat) (allowed : List Nat) (ent : List (List Nat))
    (token : List Nat) (inbox : List PMessage) :
    Except String (Protocol × List PMessage) :=
  let p0 : Protocol := ⟨zeroNonce, zeroNonce, priv, pub, 0, 0⟩
  -- write our nonce & public key
  let w1 := Protocol.writeRaw p0 ent (PData.keyBytes pub)
  -- read the client's nonce & public key
  match inbox with
  | [] => .error "transport"
  | m1 :: inbox1 =>
    let r1 := Protocol.readRaw w1.1 m1
    match r1.2 with
    | none => .error "invalid nonce"
    | some d1 =>
      let pk := dataToKey d1
      let p3 := { r1.1 with peerKey := pk }
      -- verify that this is a key we allow
      if allowed.contains pk then
        -- compute a shared key we can use for the rest of the session
        let p4 := { p3 with sharedKey := precompute pk priv }
        -- now to prevent replay attacks we trade session tokens
        let w2 := Protocol.write p4 w1.2.1 (PData.bytes token)
        -- read peer session token
        match inbox1 with
        | [] => .error "transport"
        | m2 :: inbox2 =>
          let r2 := Protocol.read w2.1 m2
          match r2.2 with
          | none => .error "read failed"
          | some peerToken =>
            -- send the peer session token back
            let w3 := Protocol.write r2.1 w2.2.1 peerToken
            -- read the response
            match inbox2 with
            | [] => .error "transport"
            | m3 :: _ =>
              let r3 := Protocol.read w3.1 m3
              match r3.2 with
              | none => .error "read failed"
              | some receivedToken =>
                if receivedToken = PData.bytes token then
                  .ok (r3.1, [w1.2.2, w2.2.2, w3.2.2])
                else .error "invalid session token"
      else .error "key not allowed"

end boxconn

namespace multiplex

/-- A mux frame (`Message` in multiplexer.go): 24-byte stream id, one code
byte, and a payload (empty unless the code is DATA). -/
structure MMsg where
  sid : List Nat
  code : Nat
  data : List Nat
  deriving DecidableEq, Repr

/-- `const DataMessage byte = 1`. -/
def DataMessage : Nat := 1

/-- `const CloseMessage byte = 2`. -/
def CloseMessage : Nat := 2

/-- 8-byte big-endian encoding of a payload length (`binary.Write` of an
`int64`; lengths are below `2 ^ 63` so the sign bit is clear). -/
def be64 (n : Nat) : List Nat :=
  [n / 2 ^ 56 % 256, n / 2 ^ 48 % 256, n / 2 ^ 40 % 256, n / 2 ^ 32 % 256,
   n / 2 ^ 24 % 256, n / 2 ^ 16 % 256, n / 2 ^ 8 % 256, n % 256]

/-- Big-endian value of a byte list. -/
def be64Val (l : List Nat) : Nat := l.foldl (fun acc b => acc * 256 + b) 0

/-- `Message.Write`: stream id bytes, then the code byte, then — only for
DATA — the 8-byte big-endian payload length followed by the payload. -/
def msgEncode (m : MMsg) : List Nat :=
  m.sid ++ m.code :: (if m.code = DataMessage then be64 m.data.length ++ m.data else [])

/-- `Message.Read` over a byte list standing for the buffered reader: parse
a 24-byte stream id and a code byte; for DATA also an 8-byte big-endian
`int64` length and that many payload bytes.  `none` models both a short
read (`io.ReadFull` error) and the panic of `make([]byte, sz)` on a
negative `int64` length.  Returns the message and the unread remainder. -/
def msgDecode (bs : List Nat) : Option (MMsg × List Nat) :=
  if bs.length < 24 then none
  else
    match bs.drop 24 with
    | [] => none
    | code :: rest =>
      if code = DataMessage then
        if rest.length < 8 then none
        else
          let sz := be64Val (rest.take 8)
          if 2 ^ 63 ≤ sz then none
          else if rest.length - 8 < sz then none
          else some (⟨bs.take 24, code, (rest.drop 8).take sz⟩, (rest.drop 8).drop sz)
      else some (⟨bs.take 24, code, []⟩, rest)

/-- The dispatch-relevant multiplexer state: the SID-to-stream map (each
stream paired with its queued inbound frames) and the accept queue. -/
structure MuxState where
  streams : List (List Nat × List MMsg)
  acceptQ : List (List Nat)
  deriving DecidableEq, Repr

/-- `m.streams[msg.StreamID]` lookup. -/
def lookupStream (streams : List (List Nat × List MMsg)) (sid : List Nat) :
    Option (List MMsg) :=
  streams.lookup sid

/-- Append a frame to the inbound queue of the stream registered for `sid`
(`conn.in <- msg` for a known stream). -/
def enqueueMsg (streams : List (List Nat × List MMsg)) (sid : List Nat) (msg : MMsg) :
    List (List Nat × List MMsg) :=
  streams.map fun p => if p.1 = sid then (p.1, p.2 ++ [msg]) else p

/-- One iteration of `Multiplexer.dispatch` on a received frame: look up the
SID; if known, enqueue the frame; if unknown, create a new stream, register
it, hand it to the accept queue, then enqueue the frame — for every code,
CLOSE included. -/
def dispatchStep (m : MuxState) (msg : MMsg) : MuxState :=
  match lookupStream m.streams msg.sid with
  | some _ => { m with streams := enqueueMsg m.streams msg.sid msg }
  | none => ⟨m.streams ++ [(msg.sid, [msg])], m.acceptQ ++ [msg.sid]⟩

/-- The per-stream state that `Conn.Read` touches: the residue buffer and
the closed flag. -/
structure MConn where
  buffer : List Nat
  closed : Bool
  deriving DecidableEq, Repr

/-- Result of one `Conn.Read` call. -/
inductive ReadRes
  | eof
  | dat (bs : List Nat)
  | blocked
  deriving DecidableEq, Repr

/-- `Conn.Read` from multiplex/conn.go, with the inbound channel modelled as
the list `inq` plus a channel-closed flag (`blocked` stands for the Go call
suspending on an empty open channel).  If the stream is closed: EOF.  If
residue exists: serve `min blen (len buffer)` bytes of it without touching
the queue.  Otherwise dequeue one frame: CLOSE means close-and-EOF (the Go
code calls `c.Close()`, which also unregisters the stream and emits a
CLOSE frame — effects outside this per-stream state); DATA copies up to
`blen` bytes and retains any tail as the new residue. -/
def connRead (c : MConn) (blen : Nat) (inq : List MMsg) (chClosed : Bool) :
    MConn × List MMsg × ReadRes :=
  if c.closed then (c, inq, .eof)
  else if 0 < c.buffer.length then
    if blen < c.buffer.length then
      ({ c with buffer := c.buffer.drop blen }, inq, .dat (c.buffer.take blen))
    else ({ c with buffer := [] }, inq, .dat c.buffer)
  else
    match inq with
    | [] => if chClosed then (c, inq, .eof) else (c, inq, .blocked)
    | msg :: rest =>
      if msg.code = CloseMessage then ({ c with closed := true }, rest, .eof)
      else if blen < msg.data.length then
        ({ c with buffer := msg.data.drop blen }, rest, .dat (msg.data.take blen))
      else (c, rest, .dat msg.data)

end multiplex

namespace rpc

/-- JSON-RPC error object. -/
structure RPCError where
  code : Int
  message : String
  deriving DecidableEq, Repr

/-- JSON-RPC request; `params` holds the raw JSON fragments. -/
structure RPCRequest where
  method : String
  params : List String
  id : Int
  deriving DecidableEq, Repr

/-- JSON-RPC response. -/
structure RPCResponse where
  result : Option String
  err : Option RPCError
  id : Int
  deriving DecidableEq, Repr

/-- The `interface{}` value returned by a handler, as the dispatch loop
distinguishes it: `gnil` is a nil interface (no body is attached to the
response), `gerr` is a value implementing `error`, and `gval v` is any
other value, carrying `json.Marshal`'s outcome for it (`none` when
marshalling fails, in which case the serve loop aborts without emitting a
response). -/
inductive GoValue
  | gnil
  | gerr (msg : String)
  | gval (marshalled : Option String)

/-- A registered handler (`func(params []json.RawMessage) interface{}`). -/
def RPCHandler : Type := List String → GoValue

/-- `s.handlers[req.Method]` lookup. -/
def lookupHandler (table : List (String × RPCHandler)) (m : String) : Option RPCHandler :=
  table.lookup m

/-- The per-request dispatch of `Server.ServeConnection` (part_001 lines
49-87): build a response carrying the request id; an absent method yields
error 4404 "unknown method"; a handler error yields 4500 with the error
text; a nil result leaves the body empty; otherwise the marshalled value
becomes the result (`none` models the marshal-failure path, which emits no
response and kills the serve loop). -/
def dispatchRequest (table : List (String × RPCHandler)) (req : RPCRequest) :
    Option RPCResponse :=
  match lookupHandler table req.method with
  | none => some ⟨none, some ⟨4404, "unknown method"⟩, req.id⟩
  | some h =>
    match h req.params with
    | .gnil => some ⟨none, none, req.id⟩
    | .gerr m => some ⟨none, some ⟨4500, m⟩, req.id⟩
    | .gval none => none
    | .gval (some bs) => some ⟨some bs, none, req.id⟩

end rpc

namespace secure

/-- The secure message as sliced by util.go: a 12-byte nonce, a tag of at
most 255 bytes, and the data. -/
structure SMessage where
  nonce : List Nat
  tag : List Nat
  data : List Nat
  deriving DecidableEq, Repr

/-- Go slice expression `l[:n]` on a slice whose capacity equals its
length: `none` models the `slice bounds out of range` panic when
`n > len(l)`. -/
def goSliceTo (l : List Nat) (n : Nat) : Option (List Nat) :=
  if n ≤ l.length then some (l.take n) else none

/-- `Message.UnmarshalBytes` from secure/util.go.  The outer `Option`
separates normal termination (`some`, carrying the Go return value: an
error or the parsed message) from a runtime panic (`none`).  The code
checks `len(data) < 13`, reads the tag length from `data[12]`, checks
`len(data) < 12+tagLength`, and then slices `data[13:][:tagLength]` —
which needs `len(data) ≥ 13+tagLength` and panics when
`len(data) = 12+tagLength` with a nonzero tag length. -/
def unmarshalBytes (data : List Nat) : Option (Except String SMessage) :=
  if data.length < 13 then some (.error "invalid message")
  else
    let tagLength := data.getD 12 0
    if data.length < 12 + tagLength then some (.error "invalid message, taglength")
    else
      let rest := data.drop 13
      match goSliceTo rest tagLength with
      | none => none
      | some tag => some (.ok ⟨data.take 12, tag, rest.drop tagLength⟩)

end secure

namespace server

/-- An `http` routing rule of a socket definition (`domainSuffix`,
`pathPrefix`); strings are modelled as character lists. -/
structure HTTPRule where
  domainSuf : List Char
  pathPre : List Char
  deriving DecidableEq, Repr

/-- A `tls` block of a socket definition (PEM cert and key text). -/
structure TLSBlock where
  cert : List Char
  key : List Char
  deriving DecidableEq, Repr

/-- `protocol.SocketDefinition`. -/
structure SocketDef where
  address : List Char
  port : Nat
  tls : Option TLSBlock
  http : Option HTTPRule
  deriving DecidableEq, Repr

/-- `downstreamConnection`: id, whether its yamux session is still open,
and its socket definition. -/
structure DownstreamConn where
  id : Nat
  sessionOpen : Bool
  sd : SocketDef
  deriving DecidableEq, Repr

/-- The per-downstream match test inside `findDownstream`: the downstream
declares an `http` rule, the request `Host` ends with the rule's domain
suffix (`strings.HasSuffix`), and the request path starts with the rule's
path prefix (`strings.HasPrefix`). -/
def dsMatches (host path : List Char) (d : DownstreamConn) : Bool :=
  match d.sd.http with
  | some r => r.domainSuf.isSuffixOf host && r.pathPre.isPrefixOf path
  | none => false

/-- `upstreamListener.findDownstream`: first downstream whose `http` rule
matches the request (the Go map iteration order becomes the list order). -/
def findDownstream (ds : List DownstreamConn) (host path : List Char) :
    Option DownstreamConn :=
  ds.find? (dsMatches host path)

/-- Outcome of one iteration of the HTTP-mode loop in
`upstreamListener.route` for a parsed request: either the 404 branch
(write a "404 Not Found" response to the client and return, which closes
the connection through the deferred `conn.Close()`), or forwarding the
request on a fresh stream of the matched downstream's session. -/
inductive RouteStep
  | respond404
  | forward (d : DownstreamConn)
  deriving DecidableEq, Repr

/-- One HTTP-mode routing step: `findDownstream`, 404 on no match. -/
def routeHTTPStep (ds : List DownstreamConn) (host path : List Char) : RouteStep :=
  match findDownstream ds host path with
  | none => .respond404
  | some d => .forward d

/-- `upstreamListener` state: the id-to-downstream map, whether the TCP
listener is still open, and the composed TLS config (`none` when no
certificates are registered). -/
structure UpstreamListener where
  downstream : List (Nat × DownstreamConn)
  listenerOpen : Bool
  tlsCerts : Option (List TLSBlock)
  deriving DecidableEq, Repr

/-- `upstreamListener.close`: close the TCP listener. -/
def closeUpstream (u : UpstreamListener) : UpstreamListener :=
  { u with listenerOpen := false }

/-- `upstreamListener.update`: with no downstreams, close the listener;
otherwise rebuild the TLS config from the registered downstreams' `tls`
blocks (`tls.X509KeyPair` is modelled as always parsing successfully). -/
def updateUpstream (u : UpstreamListener) : UpstreamListener :=
  if u.downstream.length = 0 then closeUpstream u
  else
    let certs := u.downstream.filterMap fun p => p.2.sd.tls
    if 0 < certs.length then { u with tlsCerts := some certs }
    else { u with tlsCerts := none }

/-- `upstreamListener.closeDownstream`: look up the id; if registered,
close that downstream's session (`d.session.Close()`); then run `update`.
Nothing is ever deleted from the `downstream` map. -/
def closeDownstream (u : UpstreamListener) (i : Nat) : UpstreamListener :=
  let u1 :=
    match u.downstream.lookup i with
    | some _ =>
      { u with downstream :=
          u.downstream.map fun p =>
            if p.1 = i then (p.1, { p.2 with sessionOpen := false }) else p }
    | none => u
  updateUpstream u1

end server

/-! ## Supporting lemmas -/

namespace boxconn

theorem length_incLE (l : List Nat) : (incLE l).length = l.length := by
  induction l with
  | nil => rfl
  | cons b rest ih =>
    simp only [incLE]
    split <;> simp [ih]

theorem wfBytes_incLE (l : List Nat) : wfBytes l → wfBytes (incLE l) := by
  induction l with
  | nil => intro _; exact fun b hb => absurd hb (by simp [incLE])
  | cons b rest ih =>
    intro h
    have hrest : wfBytes rest := fun x hx => h x (List.mem_cons_of_mem _ hx)
    simp only [incLE]
    split
    · intro x hx
      rcases List.mem_cons.mp hx with h1 | h2
      · omega
      · exact ih hrest x h2
    · intro x hx
      rcases List.mem_cons.mp hx with h1 | h2
      · subst h1; exact Nat.mod_lt _ (by omega)
      · exact h x (List.mem_cons_of_mem _ h2)

theorem leToNat_lt (l : List Nat) (h : wfBytes l) : leToNat l < 256 ^ l.length := by
  induction l with
  | nil => simp [leToNat]
  | cons b rest ih =>
    have hb : b < 256 := h b (List.mem_cons_self _ _)
    have hr : leToNat rest < 256 ^ rest.length :=
      ih fun x hx => h x (List.mem_cons_of_mem _ hx)
    simp only [leToNat, List.length_cons, pow_succ]
    calc b + 256 * leToNat rest < 256 + 256 * leToNat rest := by omega
      _ = 256 * (leToNat rest + 1) := by ring
      _ ≤ 256 * 256 ^ rest.length := by
          exact Nat.mul_le_mul_left _ (by omega)
      _ = 256 ^ rest.length * 256 := by ring

theorem leToNat_incLE (l : List Nat) (h : wfBytes l) :
    leToNat (incLE l) = (leToNat l + 1) % 256 ^ l.length := by
  induction l with
  | nil => rfl
  | cons b rest ih =>
    have hb : b < 256 := h b (List.mem_cons_self _ _)
    have hrest : wfBytes rest := fun x hx => h x (List.mem_cons_of_mem _ hx)
    have hr : leToNat rest < 256 ^ rest.length := leToNat_lt rest hrest
    simp only [incLE]
    split
    · -- carry case: b = 255
      have hb255 : b = 255 := by omega
      subst hb255
      simp only [leToNat, List.length_cons, ih hrest]
      have : (255 : Nat) + 256 * leToNat rest + 1 = 256 * (leToNat rest + 1) := by ring
      rw [this, pow_succ, mul_comm (256 ^ rest.length) 256, Nat.mul_mod_mul_left]
      omega
    · -- no carry: b + 1 < 256
      have hb1 : (b + 1) % 256 = b + 1 := by omega
      simp only [leToNat, hb1, List.length_cons]
      have hlt : b + 256 * leToNat rest + 1 < 256 ^ (rest.length + 1) := by
        have : b + 1 ≤ 255 := by
          rcases Nat.lt_or_ge (b + 1) 256 with h1 | h1
          · omega
          · exfalso
            have : (b + 1) % 256 = 0 := by omega
            simp_all
        calc b + 256 * leToNat rest + 1 ≤ 255 + 256 * leToNat rest := by omega
          _ < 256 * (leToNat rest + 1) := by omega
          _ ≤ 256 * 256 ^ rest.length := Nat.mul_le_mul_left _ (by omega)
          _ = 256 ^ (rest.length + 1) := by rw [pow_succ]; ring
      rw [Nat.mod_eq_of_lt hlt]
      ring

theorem leToNat_inj (l1 l2 : List Nat) (h1 : wfBytes l1) (h2 : wfBytes l2)
    (hlen : l1.length = l2.length) (hval : leToNat l1 = leToNat l2) : l1 = l2 := by
  induction l1 generalizing l2 with
  | nil => cases l2 with
    | nil => rfl
    | cons b rest => simp at hlen
  | cons b rest ih =>
    cases l2 with
    | nil => simp at hlen
    | cons b2 rest2 =>
      have hb : b < 256 := h1 b (List.mem_cons_self _ _)
      have hb2 : b2 < 256 := h2 b2 (List.mem_cons_self _ _)
      simp only [leToNat] at hval
      have hbeq : b = b2 ∧ leToNat rest = leToNat rest2 := by omega
      have := ih rest2 (fun x hx => h1 x (List.mem_cons_of_mem _ hx))
        (fun x hx => h2 x (List.mem_cons_of_mem _ hx))
        (by simpa using hlen) hbeq.2
      simp [hbeq.1, this]

theorem length_incrementNonce (n : List Nat) : (incrementNonce n).length = n.length := by
  simp [incrementNonce, length_incLE]

theorem wfBytes_incrementNonce (n : List Nat) (h : wfBytes n) :
    wfBytes (incrementNonce n) := by
  intro b hb
  have : b ∈ incLE n.reverse := by simpa [incrementNonce] using hb
  exact wfBytes_incLE n.reverse (fun x hx => h x (List.mem_reverse.mp hx)) b this

theorem nonceToNat_incrementNonce (n : List Nat) (h : wfBytes n) :
    nonceToNat (incrementNonce n) = (nonceToNat n + 1) % 256 ^ n.length := by
  simp only [nonceToNat, incrementNonce, List.reverse_reverse]
  rw [leToNat_incLE n.reverse (fun x hx => h x (List.mem_reverse.mp hx))]
  simp

theorem nonceToNat_inj (l1 l2 : List Nat) (h1 : wfBytes l1) (h2 : wfBytes l2)
    (hlen : l1.length = l2.length) (hval : nonceToNat l1 = nonceToNat l2) : l1 = l2 := by
  have := leToNat_inj l1.reverse l2.reverse
    (fun x hx => h1 x (List.mem_reverse.mp hx))
    (fun x hx => h2 x (List.mem_reverse.mp hx))
    (by simp [hlen]) hval
  have h := congrArg List.reverse this
  simpa using h

theorem pow_256_24 : (256 : Nat) ^ 24 = 2 ^ 192 := by norm_num

theorem readRaw_snd_some (p : Protocol) (msg : PMessage) (d : PData)
    (h : (Protocol.readRaw p msg).2 = some d) : d = msg.data := by
  simp only [Protocol.readRaw] at h
  split at h <;>
    (split at h
     · exact (Option.some.inj h).symm
     · exact absurd h (by simp))

theorem read_snd_some (p : Protocol) (msg : PMessage) (m : PData)
    (h : (Protocol.read p msg).2 = some m) : ∃ n k, msg.data = PData.box m n k := by
  simp only [Protocol.read] at h
  cases hd : (Protocol.readRaw p msg).2 with
  | none => rw [hd] at h; simp at h
  | some sealedD =>
    rw [hd] at h
    have hds : sealedD = msg.data := readRaw_snd_some p msg sealedD hd
    subst hds
    simp only [boxOpen] at h
    split at h
    · rename_i m0 n0 k0 heq0
      split at h
      · exact ⟨n0, k0, by rw [heq0, Option.some.inj h]⟩
      · exact absurd h (by simp)
    · exact absurd h (by simp)

theorem boxPlain_box (m : PData) (n : List Nat) (k : Nat) :
    boxPlain (PData.box m n k) = some m := rfl

theorem writeRaw_msg_data (p : Protocol) (ent : List (List Nat)) (d : PData) :
    (Protocol.writeRaw p ent d).2.2.data = d := rfl

theorem write_msg_plain (p : Protocol) (ent : List (List Nat)) (u : PData) :
    boxPlain (Protocol.write p ent u).2.2.data = some u := rfl

end boxconn

namespace multiplex

theorem be64_val (n : Nat) (h : n < 2 ^ 64) : be64Val (be64 n) = n := by
  simp only [be64, be64Val, List.foldl]
  omega

theorem length_be64 (n : Nat) : (be64 n).length = 8 := rfl

end multiplex

/-! ## Claim theorems -/

/-- Claim C1 (code_bug evaluation).  The session round-trip law fails on
the code: `Protocol.Write` seals with `box.Seal(..., &p.peerKey,
&p.sharedKey)` — the precomputed shared key sits in `box.Seal`'s
private-key slot — while the peer's `Protocol.Read` opens with
`box.Open(..., &p.peerKey, &p.privateKey)`, so the two sides derive
different symmetric keys and decryption fails.  Here both peers hold the
state the `Handshake` key-setup steps produce for the honest key pairs
with scalars 1 and 2 and synchronized nonces: the frame written by peer A
passes peer B's nonce check (`ReadRaw` accepts it) and is then rejected by
`box.Open`, so `Read` returns an error instead of the plaintext
"Hello World". -/
theorem c1_session_round_trip_fails :
    let hw : boxconn.PData := boxconn.PData.bytes [72, 101, 108, 108, 111, 32, 87, 111, 114, 108, 100]
    let n7 : List Nat := List.replicate 23 0 ++ [7]
    let pA : boxconn.Protocol :=
      ⟨n7, boxconn.zeroNonce, 1, boxconn.pubKeyOf 1, boxconn.pubKeyOf 2,
        boxconn.precompute (boxconn.pubKeyOf 2) 1⟩
    let pB : boxconn.Protocol :=
      ⟨boxconn.zeroNonce, n7, 2, boxconn.pubKeyOf 2, boxconn.pubKeyOf 1,
        boxconn.precompute (boxconn.pubKeyOf 1) 2⟩
    let frame := (boxconn.Protocol.write pA [] hw).2.2
    pA.sharedKey = pB.sharedKey
      ∧ (boxconn.Protocol.readRaw pB frame).2 = some frame.data
      ∧ (boxconn.Protocol.read pB frame).2 = none := by
  decide

/-- Claim C2 (counterexample).  As stated, the claim fails on the code:
the adoption case is keyed on the *stored peer nonce being the all-zero
sentinel*, not on the frame being the first of the session.  If the first
inbound frame carries the all-zero nonce it is adopted and leaves the
sentinel in place, so the second inbound frame is *also* adopted: here a
second read succeeds although its nonce (value 5) differs from the
previously observed nonce plus one (value 1). -/
theorem c2_counterexample :
    let p0 : boxconn.Protocol := ⟨boxconn.zeroNonce, boxconn.zeroNonce, 0, 0, 0, 0⟩
    let m1 : boxconn.PMessage := ⟨boxconn.zeroNonce, boxconn.PData.bytes []⟩
    let m2 : boxconn.PMessage := ⟨List.replicate 23 0 ++ [5], boxconn.PData.bytes []⟩
    let s1 := boxconn.Protocol.readRaw p0 m1
    let s2 := boxconn.Protocol.readRaw s1.1 m2
    s1.2 = some m1.data ∧ s2.2 = some m2.data ∧
      boxconn.nonceToNat m2.nonce ≠ (boxconn.nonceToNat m1.nonce + 1) % 2 ^ 192 := by
  decide

/-- Claim C2 (amended).  Inbound nonce discipline of `Protocol.ReadRaw`:
a frame read while the stored peer nonce is the all-zero sentinel — in
particular the very first inbound frame — has its nonce adopted and is
accepted; a frame read with a nonzero stored peer nonce succeeds if and
only if its nonce value equals the stored nonce plus one big-endian
(mod 2 ^ 192), and fails with an error (`invalid nonce`) if and only if it
does not. -/
theorem c2_readraw_nonce_discipline (p : boxconn.Protocol) (msg : boxconn.PMessage)
    (hwf1 : boxconn.wfBytes p.peerNonce) (hlen1 : p.peerNonce.length = 24)
    (hwf2 : boxconn.wfBytes msg.nonce) (hlen2 : msg.nonce.length = 24) :
    (p.peerNonce = boxconn.zeroNonce →
      (boxconn.Protocol.readRaw p msg).2 = some msg.data)
    ∧ (p.peerNonce ≠ boxconn.zeroNonce →
        (((boxconn.Protocol.readRaw p msg).2 = some msg.data) ↔
          boxconn.nonceToNat msg.nonce = (boxconn.nonceToNat p.peerNonce + 1) % 2 ^ 192)
        ∧ (((boxconn.Protocol.readRaw p msg).2 = none) ↔
          boxconn.nonceToNat msg.nonce ≠ (boxconn.nonceToNat p.peerNonce + 1) % 2 ^ 192)) := by
  constructor
  · intro hz
    simp [boxconn.Protocol.readRaw, hz]
  · intro hnz
    have hkey : msg.nonce = boxconn.incrementNonce p.peerNonce ↔
        boxconn.nonceToNat msg.nonce = (boxconn.nonceToNat p.peerNonce + 1) % 2 ^ 192 := by
      constructor
      · intro he
        rw [he, boxconn.nonceToNat_incrementNonce p.peerNonce hwf1, hlen1,
          boxconn.pow_256_24]
      · intro hv
        apply boxconn.nonceToNat_inj msg.nonce (boxconn.incrementNonce p.peerNonce) hwf2
          (boxconn.wfBytes_incrementNonce p.peerNonce hwf1)
          (by rw [hlen2, boxconn.length_incrementNonce, hlen1])
        rw [hv, boxconn.nonceToNat_incrementNonce p.peerNonce hwf1, hlen1,
          boxconn.pow_256_24]
    constructor
    · rw [← hkey]
      simp only [boxconn.Protocol.readRaw, if_neg hnz]
      constructor
      · intro hs
        by_contra hne
        simp [if_neg hne] at hs
      · intro he
        simp [if_pos he]
    · simp only [ne_eq, ← hkey]
      simp only [boxconn.Protocol.readRaw, if_neg hnz]
      constructor
      · intro hs
        intro hne
        simp [if_pos hne] at hs
      · intro he
        simp [if_neg he]

/-- Witness for C2's amended theorem: with stored peer nonce of value 1
and a frame nonce of value 2, the read succeeds. -/
theorem c2_witness :
    (boxconn.Protocol.readRaw
      ⟨boxconn.zeroNonce, List.replicate 23 0 ++ [1], 0, 0, 0, 0⟩
      ⟨List.replicate 23 0 ++ [2], boxconn.PData.bytes []⟩).2 =
      some (boxconn.PData.bytes []) :=
  ((c2_readraw_nonce_discipline
      ⟨boxconn.zeroNonce, List.replicate 23 0 ++ [1], 0, 0, 0, 0⟩
      ⟨List.replicate 23 0 ++ [2], boxconn.PData.bytes []⟩
      (by decide) (by decide) (by decide) (by decide)).2
    (by decide)).1.mpr (by decide)

set_option maxHeartbeats 1000000

/-- Claim C3 (confirmed).  Replay-defeat token exchange of
`Protocol.Handshake`: the handshake emits exactly three frames — its
public key, then its fresh token (the `token` parameter stands for the
16-byte `uuid.NewUUID()` value) sealed, then the peer's token (the
plaintext of the second inbound frame, necessarily a sealed blob) sealed
back; and whenever the handshake returns successfully, the third inbound
frame was a sealed blob whose plaintext is byte-equal to the generated
token — contrapositively, whenever the received echo differs from the
token, `Handshake` returns an error and no session is established. -/
theorem c3_handshake_token_echo (priv pub : Nat) (allowed : List Nat)
    (ent : List (List Nat)) (token : List Nat) (inbox : List boxconn.PMessage)
    (pOut : boxconn.Protocol) (outs : List boxconn.PMessage)
    (h : boxconn.handshake priv pub allowed ent token inbox = .ok (pOut, outs)) :
    outs.length = 3
    ∧ (outs[0]?.map fun w => w.data) = some (boxconn.PData.keyBytes pub)
    ∧ (inbox[2]?.bind fun m => boxconn.boxPlain m.data) =
        some (boxconn.PData.bytes token)
    ∧ (outs[1]?.bind fun w => boxconn.boxPlain w.data) =
        some (boxconn.PData.bytes token)
    ∧ ((inbox[1]?.bind fun m => boxconn.boxPlain m.data)).isSome = true
    ∧ (outs[2]?.bind fun w => boxconn.boxPlain w.data) =
        (inbox[1]?.bind fun m => boxconn.boxPlain m.data) := by
  simp only [boxconn.handshake] at h
  repeat' (split at h)
  all_goals try exact Except.noConfusion h
  rename_i inbox2a m1 x1 d1 hq1 hcont inbox2b m2 x2 ptok hq2 inbox2c m3 tail x3 rtok hq3 hecho
  obtain ⟨nb, kb, hm2d⟩ := boxconn.read_snd_some _ m2 ptok hq2
  obtain ⟨nc, kc, hm3d⟩ := boxconn.read_snd_some _ m3 rtok hq3
  subst hecho
  have houts : _ = outs := congrArg Prod.snd (Except.ok.inj h)
  subst houts
  refine ⟨rfl, ?_, ?_, ?_, ?_, ?_⟩ <;>
    simp only [List.getElem?_cons_zero, List.getElem?_cons_succ, Option.map_some',
      Option.some_bind, hm2d, hm3d, boxconn.boxPlain_box, boxconn.write_msg_plain,
      boxconn.writeRaw_msg_data, Option.isSome_some]

/-- Witness for C3: a concrete run in which the handshake succeeds (the
three inbound frames carry the peer key 4, a sealed peer token, and a
sealed echo of the generated token, with consecutive nonces), instantiating
the theorem's hypothesis. -/
theorem c3_witness :
    (([⟨List.replicate 23 0 ++ [3], boxconn.PData.keyBytes 4⟩,
       ⟨List.replicate 23 0 ++ [4],
         boxconn.PData.box (boxconn.PData.bytes [7]) (List.replicate 23 0 ++ [4]) 4⟩,
       ⟨List.replicate 23 0 ++ [5],
         boxconn.PData.box (boxconn.PData.bytes (List.replicate 16 9))
           (List.replicate 23 0 ++ [5]) 4⟩] :
      List boxconn.PMessage)[2]?.bind fun m => boxconn.boxPlain m.data) =
      some (boxconn.PData.bytes (List.replicate 16 9)) := by
  obtain ⟨-, -, hc, -, -, -⟩ := c3_handshake_token_echo 1 2 [4]
    [List.replicate 23 0 ++ [1]] (List.replicate 16 9)
    [⟨List.replicate 23 0 ++ [3], boxconn.PData.keyBytes 4⟩,
     ⟨List.replicate 23 0 ++ [4],
       boxconn.PData.box (boxconn.PData.bytes [7]) (List.replicate 23 0 ++ [4]) 4⟩,
     ⟨List.replicate 23 0 ++ [5],
       boxconn.PData.box (boxconn.PData.bytes (List.replicate 16 9))
         (List.replicate 23 0 ++ [5]) 4⟩]
    ⟨List.replicate 23 0 ++ [3], List.replicate 23 0 ++ [5], 1, 2, 4, 4⟩
    [⟨List.replicate 23 0 ++ [1], boxconn.PData.keyBytes 2⟩,
     ⟨List.replicate 23 0 ++ [2],
       boxconn.PData.box (boxconn.PData.bytes (List.replicate 16 9))
         (List.replicate 23 0 ++ [2]) 256⟩,
     ⟨List.replicate 23 0 ++ [3],
       boxconn.PData.box (boxconn.PData.bytes [7]) (List.replicate 23 0 ++ [3]) 256⟩]
    (by rfl)
  exact hc

/-- Claim C4 (counterexample).  As stated, the claim fails on the code:
`dispatch` does not ignore a CLOSE frame for an unknown SID.  On the empty
multiplexer state, dispatching a CLOSE frame for a fresh SID changes the
SID-to-stream map (a new stream is registered) and delivers the new stream
to the accept queue. -/
theorem c4_counterexample :
    let s0 : multiplex.MuxState := ⟨[], []⟩
    let msg : multiplex.MMsg := ⟨List.replicate 24 7, multiplex.CloseMessage, []⟩
    let s1 := multiplex.dispatchStep s0 msg
    s1.streams ≠ s0.streams ∧ s1.acceptQ ≠ s0.acceptQ := by
  decide

/-- Claim C4 (amended).  When the dispatch loop processes a frame — CLOSE
included — whose SID has no registered stream, it creates and registers a
new stream for that SID, hands it to the accept queue, and enqueues the
frame on the new stream's inbound queue; for a CLOSE frame the accepted
stream's first read then returns EOF (the "created-then-closed" behaviour
of §4.4's dispatch paragraph, which contradicts the "ignored" wording the
claim was built from). -/
theorem c4_dispatch_close_unknown_sid (m : multiplex.MuxState) (msg : multiplex.MMsg)
    (h : multiplex.lookupStream m.streams msg.sid = none) :
    multiplex.dispatchStep m msg =
      ⟨m.streams ++ [(msg.sid, [msg])], m.acceptQ ++ [msg.sid]⟩
    ∧ (msg.code = multiplex.CloseMessage → ∀ blen ch,
        multiplex.connRead ⟨[], false⟩ blen [msg] ch = (⟨[], true⟩, [], .eof)) := by
  constructor
  · simp [multiplex.dispatchStep, h]
  · intro hcode blen ch
    simp [multiplex.connRead, hcode]

/-- Witness for C4's amended theorem: dispatching a CLOSE for SID
`7 … 7` on the empty multiplexer registers the stream and queues it for
accept. -/
theorem c4_witness :
    multiplex.dispatchStep ⟨[], []⟩ ⟨List.replicate 24 7, multiplex.CloseMessage, []⟩ =
      ⟨[(List.replicate 24 7, [⟨List.replicate 24 7, multiplex.CloseMessage, []⟩])],
        [List.replicate 24 7]⟩ := by
  have := (c4_dispatch_close_unknown_sid ⟨[], []⟩
    ⟨List.replicate 24 7, multiplex.CloseMessage, []⟩ rfl).1
  simpa using this

/-- Claim C5 (confirmed).  Partial reads on a multiplexed stream: for a
DATA frame at the head of the inbound queue and a read buffer with
`0 < blen < len(payload)`, `Conn.Read` returns exactly the first `blen`
payload bytes (so the returned count is `blen`), retains exactly
`len(payload) - blen` bytes as the residue buffer, and any subsequent read
is served from that residue — in order, without dequeuing another frame. -/
theorem c5_mux_partial_read_residue (msg : multiplex.MMsg) (blen : Nat)
    (c : multiplex.MConn) (inq : List multiplex.MMsg) (ch : Bool)
    (hcode : msg.code = multiplex.DataMessage)
    (hpos : 0 < blen) (h1 : blen < msg.data.length)
    (hb : c.buffer = []) (hc : c.closed = false) :
    multiplex.connRead c blen (msg :: inq) ch =
      ({ c with buffer := msg.data.drop blen }, inq, .dat (msg.data.take blen))
    ∧ (msg.data.take blen).length = blen
    ∧ (msg.data.drop blen).length = msg.data.length - blen
    ∧ ∀ blen2 inq2 ch2,
        multiplex.connRead { c with buffer := msg.data.drop blen } blen2 inq2 ch2 =
          ({ c with buffer := (msg.data.drop blen).drop blen2 }, inq2,
            .dat ((msg.data.drop blen).take blen2)) := by
  refine ⟨?_, ?_, ?_, ?_⟩
  · simp [multiplex.connRead, hb, hc, hcode, multiplex.CloseMessage,
      multiplex.DataMessage, h1]
  · simp [List.length_take]; omega
  · simp [List.length_drop]
  · intro blen2 inq2 ch2
    by_cases h2 : blen2 < msg.data.length - blen
    · simp [multiplex.connRead, hc, h1, h2, List.drop_drop]
    · have hle : (msg.data.drop blen).length ≤ blen2 := by simp [List.length_drop]; omega
      simp [multiplex.connRead, hc, h1, h2, List.take_of_length_le hle,
        List.drop_eq_nil_of_le hle]

/-- Witness for C5: reading 2 bytes from a 5-byte DATA payload yields the
first two bytes and leaves the last three as residue. -/
theorem c5_witness :
    multiplex.connRead ⟨[], false⟩ 2 [⟨List.replicate 24 0, multiplex.DataMessage,
        [1, 2, 3, 4, 5]⟩] false =
      (⟨[3, 4, 5], false⟩, [], .dat [1, 2]) := by
  have := (c5_mux_partial_read_residue
    ⟨List.replicate 24 0, multiplex.DataMessage, [1, 2, 3, 4, 5]⟩ 2 ⟨[], false⟩ [] false
    rfl (by decide) (by decide) rfl rfl).1
  simpa using this

/-- Claim C6 (confirmed).  Mux frame codec round trip: for a message whose
code is DATA (with payload shorter than `2 ^ 63`, the `int64` bound) or
CLOSE (which carries no payload), `Message.Write` emits exactly
`stream_id[24] || code[1]` followed, for DATA only, by the 8-byte
big-endian length and the payload; and `Message.Read` applied to that
encoding returns the same stream id, code, and payload bytes, consuming
the whole encoding. -/
theorem c6_mux_codec_round_trip (sid : List Nat) (code : Nat) (data : List Nat)
    (hsid : sid.length = 24)
    (hcase : (code = multiplex.DataMessage ∧ data.length < 2 ^ 63)
      ∨ (code = multiplex.CloseMessage ∧ data = [])) :
    multiplex.msgEncode ⟨sid, code, data⟩ =
      sid ++ code :: (if code = multiplex.DataMessage then
        multiplex.be64 data.length ++ data else [])
    ∧ multiplex.msgDecode (multiplex.msgEncode ⟨sid, code, data⟩) =
        some (⟨sid, code, data⟩, []) := by
  constructor
  · rfl
  · have htk : ∀ tail : List Nat, (sid ++ tail).take 24 = sid := by
      intro tail; rw [← hsid]; exact List.take_left _ _
    have hdr : ∀ tail : List Nat, (sid ++ tail).drop 24 = tail := by
      intro tail; rw [← hsid]; exact List.drop_left _ _
    rcases hcase with ⟨hc, hlen⟩ | ⟨hc, hdata⟩
    · subst hc
      have h8 : (multiplex.be64 data.length ++ data).take 8 = multiplex.be64 data.length := by
        rw [← multiplex.length_be64 data.length]; exact List.take_left _ _
      have h8d : (multiplex.be64 data.length ++ data).drop 8 = data := by
        rw [← multiplex.length_be64 data.length]; exact List.drop_left _ _
      have hval : multiplex.be64Val (multiplex.be64 data.length) = data.length :=
        multiplex.be64_val data.length (by omega)
      simp [multiplex.msgEncode, multiplex.msgDecode, htk, hdr, h8, h8d, hval, hsid,
        hlen, List.length_append, multiplex.length_be64]
      omega
    · subst hc
      subst hdata
      simp [multiplex.msgEncode, multiplex.msgDecode, htk, hdr, hsid,
        multiplex.CloseMessage, multiplex.DataMessage]

/-- Witness for C6: a DATA frame with payload `[65, 66]` round trips. -/
theorem c6_witness :
    multiplex.msgDecode (multiplex.msgEncode
        ⟨List.replicate 24 0, multiplex.DataMessage, [65, 66]⟩) =
      some (⟨List.replicate 24 0, multiplex.DataMessage, [65, 66]⟩, []) :=
  (c6_mux_codec_round_trip (List.replicate 24 0) multiplex.DataMessage [65, 66]
    (by decide) (Or.inl ⟨rfl, by decide⟩)).2

/-- Claim C7 (confirmed).  Socket-master HTTP routing: whenever the
per-request routing step forwards to a downstream, that downstream is one
of the upstream's registered downstreams, declares an `http` rule, and the
request Host ends with the rule's domain suffix while the request path
starts with the rule's path prefix; and the step responds 404 (writing a
"404 Not Found" response and closing the connection) exactly when no
registered downstream with an `http` rule matches the request. -/
theorem c7_http_route_match (ds : List server.DownstreamConn) (host path : List Char) :
    (∀ d, server.routeHTTPStep ds host path = .forward d →
      d ∈ ds ∧ ∃ r, d.sd.http = some r ∧ r.domainSuf.isSuffixOf host = true
        ∧ r.pathPre.isPrefixOf path = true)
    ∧ (server.routeHTTPStep ds host path = .respond404 ↔
        ∀ d ∈ ds, server.dsMatches host path d = false) := by
  constructor
  · intro d hd
    simp only [server.routeHTTPStep] at hd
    cases hf : server.findDownstream ds host path with
    | none => rw [hf] at hd; exact absurd hd (by simp)
    | some d0 =>
      rw [hf] at hd
      have hd0 : d0 = d := by
        cases hd
        rfl
      subst hd0
      refine ⟨List.mem_of_find?_eq_some hf, ?_⟩
      have hp : server.dsMatches host path d0 = true := List.find?_some hf
      simp only [server.dsMatches] at hp
      cases hh : d0.sd.http with
      | none => rw [hh] at hp; simp at hp
      | some r =>
        rw [hh] at hp
        rw [Bool.and_eq_true] at hp
        exact ⟨r, rfl, hp.1, hp.2⟩
  · constructor
    · intro h404 d hd
      simp only [server.routeHTTPStep] at h404
      cases hf : server.findDownstream ds host path with
      | none =>
        have := List.find?_eq_none.mp hf d hd
        simpa using this
      | some d0 => rw [hf] at h404; exact absurd h404 (by simp)
    · intro hall
      simp only [server.routeHTTPStep]
      cases hf : server.findDownstream ds host path with
      | none => rfl
      | some d0 =>
        have := List.find?_some hf
        have hmem := List.mem_of_find?_eq_some hf
        rw [hall d0 hmem] at this
        exact absurd this (by simp)

/-- Witness for C7: with two downstreams, only the first of which has an
`http` rule (suffix "a", path prefix "/"), the request with Host "xa" and
path "/p" is forwarded to it, and the theorem yields the rule facts. -/
theorem c7_witness :
    (⟨1, true, ⟨[], 80, none, some ⟨['a'], ['/']⟩⟩⟩ : server.DownstreamConn) ∈
      [(⟨1, true, ⟨[], 80, none, some ⟨['a'], ['/']⟩⟩⟩ : server.DownstreamConn),
       ⟨2, true, ⟨[], 80, none, none⟩⟩]
    ∧ ∃ r, (⟨1, true, ⟨[], 80, none, some ⟨['a'], ['/']⟩⟩⟩ :
        server.DownstreamConn).sd.http = some r
      ∧ r.domainSuf.isSuffixOf ['x', 'a'] = true
      ∧ r.pathPre.isPrefixOf ['/', 'p'] = true :=
  (c7_http_route_match
    [⟨1, true, ⟨[], 80, none, some ⟨['a'], ['/']⟩⟩⟩, ⟨2, true, ⟨[], 80, none, none⟩⟩]
    ['x', 'a'] ['/', 'p']).1
    ⟨1, true, ⟨[], 80, none, some ⟨['a'], ['/']⟩⟩⟩ (by decide)

/-- Claim C8 (code_bug evaluation).  `closeDownstream` closes the
downstream's session but never deletes the id from the upstream's
`downstream` map, so `update` still sees a non-empty map and only rebuilds
the TLS config: on an upstream with a single downstream (id 1), closing
that downstream leaves the map containing id 1 (with a closed session) and
leaves the TCP listener open — the removal and last-departure listener
close the claim (and `update`'s empty-map branch) call for never happen. -/
theorem c8_close_downstream_keeps_map :
    let d : server.DownstreamConn := ⟨1, true, ⟨[], 80, none, none⟩⟩
    let u0 : server.UpstreamListener := ⟨[(1, d)], true, none⟩
    let u1 := server.closeDownstream u0 1
    u1.downstream = [(1, ⟨1, false, ⟨[], 80, none, none⟩⟩)]
    ∧ u1.listenerOpen = true := by
  decide

/-- Claim C9 (confirmed).  JSON-RPC server dispatch: every emitted
response carries the request's id; an absent method yields the error
`{code 4404, message "unknown method"}`; a handler returning an error
value yields `{code 4500, message err.text}`; a handler value that
marshals successfully becomes the result.  (A handler returning nil
leaves the body empty, which marshals to the same wire bytes
`"result": null` as a marshalled nil; a value `json.Marshal` rejects
emits no response and kills the serve loop.) -/
theorem c9_rpc_dispatch_responses (table : List (String × rpc.RPCHandler))
    (req : rpc.RPCRequest) :
    (∀ res, rpc.dispatchRequest table req = some res → res.id = req.id)
    ∧ (rpc.lookupHandler table req.method = none →
        rpc.dispatchRequest table req = some ⟨none, some ⟨4404, "unknown method"⟩, req.id⟩)
    ∧ (∀ h m, rpc.lookupHandler table req.method = some h → h req.params = .gerr m →
        rpc.dispatchRequest table req = some ⟨none, some ⟨4500, m⟩, req.id⟩)
    ∧ (∀ h bs, rpc.lookupHandler table req.method = some h →
        h req.params = .gval (some bs) →
        rpc.dispatchRequest table req = some ⟨some bs, none, req.id⟩) := by
  refine ⟨?_, ?_, ?_, ?_⟩
  · intro res hres
    simp only [rpc.dispatchRequest] at hres
    cases hl : rpc.lookupHandler table req.method with
    | none =>
      simp only [hl] at hres
      cases hres
      rfl
    | some hdl =>
      simp only [hl] at hres
      cases hv : hdl req.params with
      | gnil => simp only [hv] at hres; cases hres; rfl
      | gerr m => simp only [hv] at hres; cases hres; rfl
      | gval ob =>
        cases ob with
        | none => simp only [hv] at hres; exact absurd hres (by simp)
        | some bs => simp only [hv] at hres; cases hres; rfl
  · intro hl
    simp [rpc.dispatchRequest, hl]
  · intro h m hl hv
    simp [rpc.dispatchRequest, hl, hv]
  · intro h bs hl hv
    simp [rpc.dispatchRequest, hl, hv]

/-- Witness for C9: a registered "Add" handler whose value marshals to
"6" produces the result response with the request id 7. -/
theorem c9_witness :
    rpc.dispatchRequest [("Add", fun _ => rpc.GoValue.gval (some "6"))]
      ⟨"Add", ["1", "2", "3"], 7⟩ = some ⟨some "6", none, 7⟩ :=
  (c9_rpc_dispatch_responses [("Add", fun _ => rpc.GoValue.gval (some "6"))]
    ⟨"Add", ["1", "2", "3"], 7⟩).2.2.2
    (fun _ => rpc.GoValue.gval (some "6")) "6" rfl rfl

/-- Claim C10 (code_bug evaluation).  `Message.UnmarshalBytes` is not
total: its guard `len(data) < 12+tagLength` is off by one (the tag slice
needs `len(data) ≥ 13+tagLength`), so the 13-byte input of twelve zero
bytes followed by the tag-length byte 1 passes both checks and then
panics slicing one byte from the empty remainder (`none` in the model),
instead of returning an error. -/
theorem c10_unmarshal_oob_panic :
    secure.unmarshalBytes (List.replicate 12 0 ++ [1]) = none := by
  rfl
